import Mathlib

/-!
Shallow embedding of `tools/ctc_segmentation/scripts/utils.py`.

Modelling conventions:
* Python floats and numpy float64 values are modelled as rationals.
* numpy arrays indexed by frames or matrix positions (`timings`, `char_probs`,
  `log_probs`) are modelled as total functions from the integers; the claims
  only exercise in-range indices.
* Python lists keep Python indexing semantics where the code relies on them:
  a negative index addresses from the end of the list.  A genuinely
  out-of-range access is modelled by a default value (the code under
  consideration never performs one on the inputs the claims quantify over).
* code that can raise an exception is modelled with `Option` or `Except`.
-/

/-- Python built-in `round` on rationals: round half to even. -/
def pyRound (q : ℚ) : ℤ :=
  if q - ⌊q⌋ < 1/2 then ⌊q⌋
  else if 1/2 < q - ⌊q⌋ then ⌊q⌋ + 1
  else if 2 ∣ ⌊q⌋ then ⌊q⌋ else ⌊q⌋ + 1

/-- Python list indexing for a list of symbol strings: a negative index
addresses from the end of the list, as in `char_list[j]` for negative `j`
in `determine_utterance_segments`.  Out-of-range access is modelled by `[]`. -/
def pyIdx (l : List (List Char)) (i : ℤ) : List Char :=
  if 0 ≤ i then l.getD i.toNat []
  else l.getD (i + (l.length : ℤ)).toNat []

/-- Default of `CtcSegmentationParameters.start_of_ground_truth` in the external
`ctc_segmentation` package (the repository constructs the parameter object with
this default and never overrides it). -/
def start_of_ground_truth : List Char := ['#']

/-- Default of `CtcSegmentationParameters.excluded_characters` in the external
`ctc_segmentation` package: the string of the characters
period, comma, hyphen, question mark, exclamation mark, colon, guillemets,
semicolon, U+0027, single angle quotes and parentheses. -/
def excluded_characters : List Char :=
  ['.', ',', '-', '?', '!', ':', '»', '«', ';', Char.ofNat 39, '›', '‹', '(', ')']

/-- Default of `CtcSegmentationParameters.tokenized_meta_symbol` in the external
`ctc_segmentation` package. -/
def tokenized_meta_symbol : Char := '▁'

/-- One character of an utterance is kept for the ground-truth string iff
`char in config.char_list and char not in config.excluded_characters`, or else
`config.tokenized_meta_symbol + char in config.char_list`
(`_prepare_text_default`, the character loop). -/
def keepChar (char_list : List (List Char)) (c : Char) : Bool :=
  decide (([c] ∈ char_list ∧ c ∉ excluded_characters) ∨
    [tokenized_meta_symbol, c] ∈ char_list)

/-- The character loop of `_prepare_text_default`: append every kept character
of the utterance to the ground-truth string. -/
def addUtt (char_list : List (List Char)) (g : List Char) (utt : List Char) :
    List Char :=
  utt.foldl (fun acc c => if keepChar char_list c then acc ++ [c] else acc) g

/-- `if not ground_truth.endswith(config.space): ground_truth += config.space`
with `config.space = " "` as set by `get_segments` for character models. -/
def ensureSpace (g : List Char) : List Char :=
  if g.getLast? = some ' ' then g else g ++ [' ']

/-- The main loop of `_prepare_text_default`: for each utterance, ensure a
single separating space, record `len(ground_truth) - 1` as the utterance begin
index, then append the kept characters; after the last utterance ensure a
trailing space and record the final index. -/
def prepLoop (char_list : List (List Char)) :
    List (List Char) → List Char → List ℕ → List Char × List ℕ
  | [], g, idxs =>
    let g2 := ensureSpace g
    (g2, idxs ++ [g2.length - 1])
  | utt :: rest, g, idxs =>
    let g2 := ensureSpace g
    prepLoop char_list rest (addUtt char_list g2 utt) (idxs ++ [g2.length - 1])

/-- The ground-truth string and utterance begin indices computed by
`_prepare_text_default` before the transition matrix is filled in. -/
def groundTruthAndIndices (char_list : List (List Char))
    (text : List (List Char)) : List Char × List ℕ :=
  prepLoop char_list text start_of_ground_truth []

/-- One slot of one row of the ground-truth transition matrix
(`_prepare_text_default`, the matrix loop): for position `i` and span length
`s + 1`, look at `ground_truth[i - s : i + 1]`.  The code first tests
`span == config.space` and then `span in config.char_list`; when the span is
the space but the space is not in the vocabulary, `config.char_list.index`
raises, which is modelled by `none`.  A slot that is not set keeps `-1`. -/
def rowEntry (char_list : List (List Char)) (g : List Char) (i s : ℕ) :
    Option ℤ :=
  if i < s then some (-1)
  else
    let span := (g.drop (i - s)).take (s + 1)
    if span = [' '] ∧ span ∉ char_list then none
    else if span ∈ char_list then some (char_list.indexOf span)
    else some (-1)

/-- Left-to-right traversal of a list by a fallible function, stopping at the
first failure: the `Option`-monad behaviour of a Python loop whose body can
raise. -/
def optTraverse (f : α → Option β) : List α → Option (List β)
  | [] => some []
  | a :: l =>
    match f a with
    | none => none
    | some b =>
      match optTraverse f l with
      | none => none
      | some bs => some (b :: bs)

/-- `_prepare_text_default` of `utils.py` (character mode, with `config.space`
set to a single space by `get_segments`): returns the ground-truth transition
matrix (rows of two slots, `-1` marking an unused slot) and the utterance begin
indices; `none` models a raised exception while filling the matrix. -/
def _prepare_text_default (char_list : List (List Char))
    (text : List (List Char)) : Option (List (ℤ × ℤ) × List ℕ) :=
  let gi := groundTruthAndIndices char_list text
  (optTraverse (fun i =>
      match rowEntry char_list gi.1 i 0, rowEntry char_list gi.1 i 1 with
      | some a, some b => some (a, b)
      | _, _ => none) (List.range gi.1.length)).map (fun mat => (mat, gi.2))

/-- `_prepare_tokenized_text_for_bpe_model` of `utils.py`: rows are bracketed
by blank(+word-boundary) marker rows; `vocabulary.index` of the word-boundary
symbol raises when it is absent, modelled by `none`. -/
def _prepare_tokenized_text_for_bpe_model (text : List (List Char))
    (tokenizer : List Char → List ℤ) (vocabulary : List (List Char)) :
    Option (List (ℤ × ℤ) × List ℕ) :=
  if [tokenized_meta_symbol] ∈ vocabulary then
    let space_idx : ℤ := vocabulary.indexOf [tokenized_meta_symbol]
    let blank_idx : ℤ := (vocabulary.length : ℤ) - 1
    let step := fun (acc : List (ℤ × ℤ) × List ℕ) (uttr : List Char) =>
      let mat := acc.1 ++ [(blank_idx, space_idx)]
      let idxs := acc.2 ++ [mat.length]
      (mat ++ (tokenizer uttr).map (fun t => (t, (-1 : ℤ))), idxs)
    let r := text.foldl step ([((-1 : ℤ), (-1 : ℤ))], [])
    some (r.1 ++ [(blank_idx, space_idx)], r.2 ++ [r.1.length])
  else none

/-- The `align_type == "begin"` branch of `_compute_time`. -/
def computeTimeBegin (timings : ℤ → ℚ) (index : ℤ) : ℚ :=
  max (timings (index + 1) - 1/2) ((timings index + timings (index - 1)) / 2)

/-- The `align_type == "end"` branch of `_compute_time`. -/
def computeTimeEnd (timings : ℤ → ℚ) (index : ℤ) : ℚ :=
  min (timings (index - 1) + 1/2) ((timings index + timings (index - 1)) / 2)

/-- `_compute_time` of `utils.py`; a Python call with an `align_type` other
than the two recognized ones falls off the function and returns `None`. -/
def _compute_time (timings : ℤ → ℚ) (index : ℤ) (align_type : String) :
    Option ℚ :=
  if align_type = "begin" then some (computeTimeBegin timings index)
  else if align_type = "end" then some (computeTimeEnd timings index)
  else none

/-- The candidate frames examined by the backward blank scan of
`determine_utterance_segments`: `j` runs from `start_t_floor - 1` downward
while `j > start_t_floor - 20`, so exactly the nineteen frames
`start_t_floor - 1, ..., start_t_floor - 19` can be recorded. -/
def scanCandidates (floor_t : ℤ) : List ℤ :=
  (List.range 19).map (fun k : ℕ => floor_t - 1 - (k : ℤ))

/-- The backward blank scan (`while char_list[j] == config.char_list[config.blank]
and j > start_t_floor - 20: start_blank = j; j -= 1`).  The loop walks the
candidate frames in order, records each one while it is still blank, and stops
at the first non-blank frame; `start_blank` ends up `None` or the last
recorded (furthest back) frame, i.e. the last element of the longest blank
prefix of the candidate list. -/
def scanBack (bt : List (List Char)) (blank : List Char) (floor_t : ℤ) :
    Option ℤ :=
  ((scanCandidates floor_t).takeWhile (fun j => decide (pyIdx bt j = blank))).getLast?

/-- The start-frame computation of `determine_utterance_segments` for one
utterance, `start_t = start / config.index_duration_in_seconds` given as `q`:
if the backtracked symbol at the floored frame is the blank symbol, run the
backward scan; `if start_blank:` is a Python truthiness test, so both `None`
and frame `0` fall back to the floored frame, while any other recorded frame
`m` yields `int(round(start_blank + (start_t_floor - start_blank) / 2))`.
If the floored frame is not blank, `start_t = int(round(start_t))`. -/
def snapStartT (bt : List (List Char)) (blank : List Char) (q : ℚ) : ℤ :=
  if pyIdx bt ⌊q⌋ = blank then
    match scanBack bt blank ⌊q⌋ with
    | some m => if m = 0 then ⌊q⌋ else pyRound ((m : ℚ) + (((⌊q⌋ : ℤ) : ℚ) - (m : ℚ)) / 2)
    | none => ⌊q⌋
  else pyRound q

/-- The start-seconds value produced together with `snapStartT`: in the blank
branch the code recomputes `start = start_t * config.index_duration_in_seconds`;
in the other branch `start` keeps its original value `start0`. -/
def snapStartSec (bt : List (List Char)) (blank : List Char) (start0 q dur : ℚ) :
    ℚ :=
  if pyIdx bt ⌊q⌋ = blank then ((snapStartT bt blank q : ℤ) : ℚ) * dur else start0

/-- `min_prob = np.float64(-10000000000.0)`, the degenerate-alignment
confidence sentinel of `determine_utterance_segments`. -/
def min_prob : ℚ := -10000000000

/-- Mean of `char_probs[a:b]` for an in-range numpy slice. -/
def meanSlice (p : ℤ → ℚ) (a b : ℤ) : ℚ :=
  (((List.range (b - a).toNat).map (fun k => p (a + (k : ℤ)))).sum) / (((b - a : ℤ)) : ℚ)

/-- The window means visited by the scoring loop
`for t in range(start_t, end_t - n): min(min_avg, char_probs[t : t + n].mean())`:
the window start `t` runs over `start_t, ..., end_t - n - 1`. -/
def windowMeans (p : ℤ → ℚ) (L start_t end_t : ℤ) : List ℚ :=
  (List.range (end_t - L - start_t).toNat).map
    (fun k => meanSlice p (start_t + (k : ℤ)) (start_t + (k : ℤ) + L))

/-- The confidence score of `determine_utterance_segments` (`n` is
`config.score_min_mean_over_L`, called `L` here): the sentinel for a
degenerate span, the plain mean for a span of at most `L` frames, and
otherwise a fold of `min` over the window means starting from `0.0`. -/
def confidence (p : ℤ → ℚ) (L start_t end_t : ℤ) : ℚ :=
  if end_t ≤ start_t then min_prob
  else if end_t - start_t ≤ L then meanSlice p start_t end_t
  else (windowMeans p L start_t end_t).foldl min 0

/-- One iteration of the utterance loop of `determine_utterance_segments`:
raw seconds via `_compute_time`, the blank-run start snap, the rounded end
frame, and the confidence score; returns the `(start, end, score)` triple. -/
def utteranceSegment (blank : List Char) (L : ℤ) (dur : ℚ)
    (bt : List (List Char)) (p timings : ℤ → ℚ) (b0 b1 : ℤ) : ℚ × ℚ × ℚ :=
  let start0 := computeTimeBegin timings b0
  let endSec := computeTimeEnd timings b1
  let q := start0 / dur
  let start_t := snapStartT bt blank q
  let start := snapStartSec bt blank start0 q dur
  let end_t := pyRound (endSec / dur)
  (start, endSec, confidence p L start_t end_t)

/-- `determine_utterance_segments` of `utils.py`: one `(start, end, score)`
triple per utterance, using begin indices `utt_begin_indices[i]` and
`utt_begin_indices[i + 1]`; `blank` is `config.char_list[config.blank]`,
`dur` is `config.index_duration_in_seconds`, `bt` is the backtracked
`char_list` and `p` is `char_probs`. -/
def determine_utterance_segments (blank : List Char) (L : ℤ) (dur : ℚ)
    (utt_begin_indices : List ℤ) (p timings : ℤ → ℚ)
    (text : List (List Char)) (bt : List (List Char)) : List (ℚ × ℚ × ℚ) :=
  (List.range text.length).map (fun i =>
    utteranceSegment blank L dur bt p timings
      (utt_begin_indices.getD i 0) (utt_begin_indices.getD (i + 1) 0))

/-- A `(start, end, score)` triple as held in a segments list. -/
structure SegTriple where
  start : ℚ
  stop : ℚ
  score : ℚ
deriving DecidableEq

/-- One entry of the `segments` argument of `write_output`: either one triple
per utterance or a list of sub-segment triples. -/
inductive SegEntry where
  | single (x : SegTriple)
  | multi (xs : List SegTriple)
deriving DecidableEq

/-- One entry of a text-variant argument of `write_output`: a Python string or
a list of strings (the list shape arises when an utterance was split
upstream). -/
inductive TextEntry where
  | str (s : List Char)
  | lst (xs : List (List Char))
deriving DecidableEq

/-- Python repr of a list of strings, as an f-string would format a list-shaped
text entry (quoting each element with U+0027 and separating by comma-space). -/
def pyListRepr (xs : List (List Char)) : List Char :=
  '[' :: (List.intercalate [',', ' ']
    (xs.map (fun s => Char.ofNat 39 :: s ++ [Char.ofNat 39]))) ++ [']']

/-- How an f-string formats a whole text entry (`{text[i]}`). -/
def fmtTextEntry : TextEntry → List Char
  | .str s => s
  | .lst xs => pyListRepr xs

/-- Python `text[i][j]`: for a string entry the j-th character as a
one-character string, for a list entry the j-th element; out of range raises,
modelled by `none`. -/
def textIndex : TextEntry → ℕ → Option (List Char)
  | .str s, j => (s.get? j).map (fun c => [c])
  | .lst xs, j => xs.get? j

/-- One line written by `write_output`: the header line holding the audio path,
or a segment line `start end score | text | text_no_preprocessing |
text_normalized`. -/
inductive OutLine where
  | header (pathWav : List Char)
  | seg (start stop score : ℚ) (t1 t2 t3 : List Char)
deriving DecidableEq

/-- The score field of a segment line. -/
def lineScore : OutLine → Option ℚ
  | .header _ => none
  | .seg _ _ sc _ _ _ => some sc

/-- The first text field (`text`) of a segment line. -/
def lineText1 : OutLine → Option (List Char)
  | .header _ => none
  | .seg _ _ _ t1 _ _ => some t1

/-- The lines `write_output` produces for utterance `i`: for a plain triple one
line carrying the triple and the three whole text entries; for a list of
sub-segments one line per sub-segment `j`, overwriting the score with `-0.2`
(modelled as the rational `-1/5`) and indexing each text entry at `j`. -/
def entryLines (seg : SegEntry) (t1 t2 t3 : TextEntry) :
    Option (List OutLine) :=
  match seg with
  | .single x =>
    some [.seg x.start x.stop x.score (fmtTextEntry t1) (fmtTextEntry t2) (fmtTextEntry t3)]
  | .multi xs =>
    optTraverse (fun j =>
      match xs.get? j, textIndex t1 j, textIndex t2 j, textIndex t3 j with
      | some x, some a, some b, some c =>
        some (OutLine.seg x.start x.stop (-(1/5)) a b c)
      | _, _, _, _ => none) (List.range xs.length)

/-- `write_output` of `utils.py`, modelled as the list of lines written to the
output file: the header line with the audio path, then the per-utterance lines;
`none` models a raised indexing exception. -/
def write_output (path_wav : List Char) (segments : List SegEntry)
    (t1 t2 t3 : List TextEntry) : Option (List OutLine) :=
  match optTraverse (fun i =>
      match segments.get? i, t1.get? i, t2.get? i, t3.get? i with
      | some s, some a, some b, some c => entryLines s a b c
      | _, _, _, _ => none) (List.range segments.length) with
  | none => none
  | some body => some (OutLine.header path_wav :: body.flatten)

/-- Python `str.strip` restricted to ASCII whitespace. -/
def pyStrip (s : List Char) : List Char :=
  ((s.dropWhile (fun c => c = ' ' ∨ c = '\t' ∨ c = '\n' ∨ c = '\r')).reverse.dropWhile
    (fun c => c = ' ' ∨ c = '\t' ∨ c = '\n' ∨ c = '\r')).reverse

/-- `[t.strip() for t in text if t.strip()]`. -/
def stripLines (l : List (List Char)) : List (List Char) :=
  (l.map pyStrip).filter (fun t => t ≠ [])

/-- The alignment result returned by the external `cs.ctc_segmentation` call:
per-position timings, per-position probabilities and the backtracked symbol
sequence. -/
structure BackendOut where
  timings : ℤ → ℚ
  char_probs : ℤ → ℚ
  bt_chars : List (List Char)

/-- The file-system and backend environment one `get_segments` job runs in:
the transcript file content (`none` when opening it raises), the two sibling
files with their existence flags, and the outcome of the external alignment
call. -/
structure JobEnv where
  transcript : Option (List (List Char))
  punct_exists : Bool
  punct : List (List Char)
  normalized_exists : Bool
  normalized : List (List Char)
  backend : Except Unit BackendOut

/-- The body of the `try:` block of `get_segments`: read and strip the three
text variants, check the sibling files exist and the line counts match, build
the ground-truth matrix (character or BPE mode), run the external backend,
refine the boundaries and produce the output lines.  Every raised exception is
an `Except.error`. -/
def jobBody (env : JobEnv) (path_wav : List Char)
    (vocabulary : List (List Char)) (tokenizer : List Char → List ℤ)
    (bpe_model : Bool) (dur : ℚ) (L : ℤ) : Except Unit (List OutLine) :=
  match env.transcript with
  | none => .error ()
  | some raw =>
    let text := stripLines raw
    if env.punct_exists = false then .error () else
    let text_no_preprocessing := stripLines env.punct
    if env.normalized_exists = false then .error () else
    let text_normalized := stripLines env.normalized
    if text_no_preprocessing.length ≠ text.length then .error () else
    if text_normalized.length ≠ text.length then .error () else
    match (if bpe_model then
             _prepare_tokenized_text_for_bpe_model text tokenizer vocabulary
           else _prepare_text_default vocabulary text) with
    | none => .error ()
    | some (_, utt_begin_indices) =>
      match env.backend with
      | .error _ => .error ()
      | .ok bo =>
        let blank := vocabulary.getD (vocabulary.length - 1) []
        let segments := determine_utterance_segments blank L dur
          (utt_begin_indices.map (fun n => (n : ℤ))) bo.char_probs bo.timings
          text bo.bt_chars
        match write_output path_wav
            (segments.map (fun s => SegEntry.single ⟨s.1, s.2.1, s.2.2⟩))
            (text.map TextEntry.str) (text_no_preprocessing.map TextEntry.str)
            (text_normalized.map TextEntry.str) with
        | none => .error ()
        | some lines => .ok lines

/-- `get_segments` of `utils.py`: the whole job body runs inside
`try: ... except Exception`, so a raised exception is logged and the job
produces no output file; the result is `some lines` exactly when the output
file is written. -/
def get_segments (env : JobEnv) (path_wav : List Char)
    (vocabulary : List (List Char)) (tokenizer : List Char → List ℤ)
    (bpe_model : Bool) (dur : ℚ) (L : ℤ) : Option (List OutLine) :=
  (jobBody env path_wav vocabulary tokenizer bpe_model dur L).toOption

/-! Helper lemmas. -/

/-- The character loop appends exactly the kept characters. -/
theorem addUtt_eq_append_filter (CL : List (List Char)) (utt : List Char) :
    ∀ g, addUtt CL g utt = g ++ utt.filter (keepChar CL) := by
  induction utt with
  | nil => intro g; simp [addUtt]
  | cons c l ih =>
    intro g
    by_cases h : keepChar CL c
    · simpa [addUtt, h, List.filter_cons] using ih (g ++ [c])
    · simpa [addUtt, h, List.filter_cons] using ih g

theorem ensureSpace_le_length (g : List Char) :
    g.length ≤ (ensureSpace g).length := by
  unfold ensureSpace
  split <;> simp

theorem ensureSpace_pos (g : List Char) : 1 ≤ (ensureSpace g).length := by
  unfold ensureSpace
  split
  next h =>
    cases g with
    | nil => simp at h
    | cons a l => simp
  next h => simp

theorem prepLoop_snd_length (CL : List (List Char)) :
    ∀ (text : List (List Char)) (g : List Char) (idxs : List ℕ),
      (prepLoop CL text g idxs).2.length = idxs.length + text.length + 1 := by
  intro text
  induction text with
  | nil => intro g idxs; simp [prepLoop]
  | cons u rest ih =>
    intro g idxs
    simp [prepLoop, ih]
    omega

theorem prepLoop_pairwise (CL : List (List Char)) :
    ∀ (text : List (List Char)) (g : List Char) (idxs : List ℕ),
      (∀ utt ∈ text, ∃ c ∈ utt, keepChar CL c = true) →
      List.Pairwise (fun a b => a < b) idxs →
      (∀ i ∈ idxs, i + 1 < g.length) →
      List.Pairwise (fun a b => a < b) (prepLoop CL text g idxs).2 := by
  intro text
  induction text with
  | nil =>
    intro g idxs _ hpw hlt
    simp only [prepLoop]
    rw [List.pairwise_append]
    refine ⟨hpw, List.pairwise_singleton _ _, ?_⟩
    intro i hi b hb
    rw [List.mem_singleton] at hb
    subst hb
    have h1 := hlt i hi
    have h2 := ensureSpace_le_length g
    omega
  | cons u rest ih =>
    intro g idxs hkeep hpw hlt
    simp only [prepLoop]
    have hgrow : (ensureSpace g).length + 1 ≤ (addUtt CL (ensureSpace g) u).length := by
      rw [addUtt_eq_append_filter, List.length_append]
      obtain ⟨c, hc, hk⟩ := hkeep u (List.mem_cons_self u rest)
      have : c ∈ u.filter (keepChar CL) := List.mem_filter.mpr ⟨hc, hk⟩
      have : 0 < (u.filter (keepChar CL)).length :=
        List.length_pos.mpr (List.ne_nil_of_mem this)
      omega
    apply ih (addUtt CL (ensureSpace g) u) (idxs ++ [(ensureSpace g).length - 1])
    · intro utt hutt; exact hkeep utt (List.mem_cons_of_mem u hutt)
    · rw [List.pairwise_append]
      refine ⟨hpw, List.pairwise_singleton _ _, ?_⟩
      intro i hi b hb
      rw [List.mem_singleton] at hb
      subst hb
      have h1 := hlt i hi
      have h2 := ensureSpace_le_length g
      omega
    · intro i hi
      rw [List.mem_append, List.mem_singleton] at hi
      have h2 := ensureSpace_le_length g
      have h3 := ensureSpace_pos g
      rcases hi with hi | hi
      · have := hlt i hi; omega
      · subst hi; omega

/-- A successful `_prepare_text_default` returns the begin indices of the
ground-truth string construction. -/
theorem _prepare_text_default_snd (CL : List (List Char))
    (text : List (List Char)) (mat : List (ℤ × ℤ)) (ubi : List ℕ)
    (h : _prepare_text_default CL text = some (mat, ubi)) :
    ubi = (groundTruthAndIndices CL text).2 := by
  simp only [_prepare_text_default, Option.map_eq_some'] at h
  obtain ⟨m, hm, heq⟩ := h
  exact (Prod.ext_iff.mp heq).2.symm

/-! Claim theorems. -/

/-- The concrete vocabulary of the claim C3 scenario: characters a, b, space
and the blank symbol at the last index. -/
def vocabC3 : List (List Char) := [['a'], ['b'], [' '], ['ε']]

/-- Claim C6: for begin indices `b[i]` and `b[i+1]`, the raw start seconds are
`max(timing[idx+1] - 0.5, (timing[idx] + timing[idx-1]) / 2)` at `idx = b[i]`
and the raw end seconds are
`min(timing[idx-1] + 0.5, (timing[idx] + timing[idx-1]) / 2)` at
`idx = b[i+1]`, exactly as `_compute_time` computes them. -/
theorem C6_compute_time_formula (timings : ℤ → ℚ) (b0 b1 : ℤ) :
    _compute_time timings b0 "begin" =
      some (max (timings (b0 + 1) - 1/2) ((timings b0 + timings (b0 - 1)) / 2)) ∧
    _compute_time timings b1 "end" =
      some (min (timings (b1 - 1) + 1/2) ((timings b1 + timings (b1 - 1)) / 2)) :=
  ⟨rfl, rfl⟩

/-- Claim C3 counterexample: with vocabulary `a, b, space, blank` and
utterances `ab`, `ba`, the character-mode builder does NOT produce the
ground-truth string `"ab ba "`, and the first two begin indices are NOT
`[0, 4]`: the string starts with the ground-truth start symbol `#` followed by
a separating space, giving `"# ab ba "` with begin indices `[1, 4, 7]`. -/
theorem C3_counterexample :
    (groundTruthAndIndices vocabC3 [['a', 'b'], ['b', 'a']]).1 ≠ "ab ba ".toList ∧
    (groundTruthAndIndices vocabC3 [['a', 'b'], ['b', 'a']]).2.take 2 ≠ [0, 4] := by
  decide

/-- Claim C3 amended: with vocabulary `a, b, space, blank` and utterances
`ab`, `ba`, the character-mode Matrix Builder produces the ground-truth string
`"# ab ba "` (the external start-of-ground-truth symbol, then the utterances
separated by single spaces, with a trailing space) and utterance begin indices
`[1, 4, 7]`, whose first two entries are `[1, 4]`. -/
theorem C3_amended_scenario :
    groundTruthAndIndices vocabC3 [['a', 'b'], ['b', 'a']] =
      ("# ab ba ".toList, [1, 4, 7]) ∧
    _prepare_text_default vocabC3 [['a', 'b'], ['b', 'a']] =
      some ([(-1, -1), (2, -1), (0, -1), (1, -1), (2, -1), (1, -1), (0, -1), (2, -1)],
        [1, 4, 7]) := by
  decide

/-- Claim C4 counterexample: for the utterance list containing the single
utterance `x`, whose only character is outside the vocabulary, the begin-index
sequence returned by the character-mode builder is `[1, 1]`, which is not
strictly increasing. -/
theorem C4_counterexample :
    (_prepare_text_default vocabC3 [['x']]).map Prod.snd = some [1, 1] ∧
    ¬ List.Pairwise (fun a b : ℕ => a < b) [1, 1] := by
  decide

/-- Claim C4 amended: for every utterance list accepted by the character-mode
Matrix Builder, the returned begin-index sequence has length equal to the
utterance count plus one, and it is strictly increasing provided every
utterance retains at least one character (a character of the vocabulary that
is not excluded, or one whose meta-prefixed form is in the vocabulary);
an utterance retaining no character repeats the previous index. -/
theorem C4_amended_begin_indices (CL : List (List Char))
    (text : List (List Char)) (mat : List (ℤ × ℤ)) (ubi : List ℕ)
    (h : _prepare_text_default CL text = some (mat, ubi)) :
    ubi.length = text.length + 1 ∧
    ((∀ utt ∈ text, ∃ c ∈ utt, keepChar CL c = true) →
      List.Pairwise (fun a b => a < b) ubi) := by
  have hubi := _prepare_text_default_snd CL text mat ubi h
  subst hubi
  constructor
  · simpa [groundTruthAndIndices] using
      prepLoop_snd_length CL text start_of_ground_truth []
  · intro hkeep
    exact prepLoop_pairwise CL text start_of_ground_truth [] hkeep
      List.Pairwise.nil (by intro i hi; simp at hi)

/-- Claim C4 witness: the amended theorem applied to the concrete scenario of
claim C3, whose utterances all retain characters. -/
theorem C4_amended_begin_indices_witness :
    _prepare_text_default vocabC3 [['a', 'b'], ['b', 'a']] =
      some ([(-1, -1), (2, -1), (0, -1), (1, -1), (2, -1), (1, -1), (0, -1), (2, -1)],
        [1, 4, 7]) ∧
    ([1, 4, 7] : List ℕ).length = 2 + 1 ∧
    List.Pairwise (fun a b : ℕ => a < b) [1, 4, 7] :=
  ⟨by decide,
   (C4_amended_begin_indices vocabC3 [['a', 'b'], ['b', 'a']]
     [(-1, -1), (2, -1), (0, -1), (1, -1), (2, -1), (1, -1), (0, -1), (2, -1)]
     [1, 4, 7] (by decide)).1,
   (C4_amended_begin_indices vocabC3 [['a', 'b'], ['b', 'a']]
     [(-1, -1), (2, -1), (0, -1), (1, -1), (2, -1), (1, -1), (0, -1), (2, -1)]
     [1, 4, 7] (by decide)).2 (by decide)⟩

/-- A fold of `min` never exceeds its initial value. -/
theorem foldl_min_le_init (l : List ℚ) : ∀ a : ℚ, l.foldl min a ≤ a := by
  induction l with
  | nil => intro a; simp
  | cons x l ih => intro a; exact le_trans (ih (min a x)) (min_le_left a x)

/-- A fold of `min` is one of the initial value and the list elements. -/
theorem foldl_min_mem (l : List ℚ) : ∀ a : ℚ, l.foldl min a ∈ a :: l := by
  induction l with
  | nil => intro a; simp
  | cons x l ih =>
    intro a
    have h := ih (min a x)
    rcases List.mem_cons.mp h with h | h
    · rw [List.foldl_cons, h]
      rcases min_choice a x with hm | hm <;> rw [hm]
      · exact List.mem_cons_self a (x :: l)
      · exact List.mem_cons_of_mem a (List.mem_cons_self x l)
    · exact List.mem_cons_of_mem a (List.mem_cons_of_mem x h)

/-- A fold of `min` is a lower bound of its initial value and the list. -/
theorem foldl_min_le (l : List ℚ) : ∀ a : ℚ, ∀ x ∈ a :: l, l.foldl min a ≤ x := by
  induction l with
  | nil => intro a x hx; simp at hx; simp [hx]
  | cons y l ih =>
    intro a x hx
    rw [List.foldl_cons]
    rcases List.mem_cons.mp hx with hx | hx
    · subst hx
      exact le_trans (foldl_min_le_init l (min x y)) (min_le_left x y)
    rcases List.mem_cons.mp hx with hx | hx
    · subst hx
      exact le_trans (foldl_min_le_init l (min a x)) (min_le_right a x)
    · exact ih (min a y) x (List.mem_cons_of_mem _ hx)

/-- Claim C10: for a non-degenerate span strictly longer than the scoring
window, the confidence is at most zero whatever the per-frame probabilities
are, because the scoring loop folds `min` starting from `0.0`. -/
theorem C10_long_span_confidence_nonpositive (p : ℤ → ℚ) (L s e : ℤ)
    (h1 : s < e) (h2 : L < e - s) : confidence p L s e ≤ 0 := by
  unfold confidence
  rw [if_neg (by omega), if_neg (by omega)]
  exact foldl_min_le_init _ _

/-- Claim C10 witness: with every per-frame probability equal to `5`, a span
of three frames and a window of one frame still scores at most zero. -/
theorem C10_witness :
    ((0 : ℤ) < 3 ∧ (1 : ℤ) < 3 - 0) ∧ confidence (fun _ => (5 : ℚ)) 1 0 3 ≤ 0 :=
  ⟨by decide, C10_long_span_confidence_nonpositive (fun _ => (5 : ℚ)) 1 0 3
    (by decide) (by decide)⟩

/-- Concrete per-frame probabilities used to separate the implemented score
from the claimed one: frames score `-1` except frame `2`, which scores `-4`. -/
def pC1 : ℤ → ℚ := fun i => if i = 2 then -4 else -1

/-- Modelled from the spec wording of claim C1: the means of ALL windows of
length `L` fully inside `[s, e)`, i.e. with window starts `s, ..., e - L`. -/
def allWindowMeans (p : ℤ → ℚ) (L s e : ℤ) : List ℚ :=
  (List.range (e - L - s + 1).toNat).map
    (fun k => meanSlice p (s + (k : ℤ)) (s + (k : ℤ) + L))

/-- Modelled from the spec wording of claim C1: for a span of more than `L`
frames, the minimum over all windows of length `L` fully inside the span of
the mean per-frame probability of that window (no zero cap). -/
def confidence_spec (p : ℤ → ℚ) (L s e : ℤ) : ℚ :=
  if e - s ≤ L then meanSlice p s e
  else (allWindowMeans p L s e).foldl min (meanSlice p s (s + L))

/-- Claim C1 counterexample: with window length `2` and span `[0, 3)` over
`pC1`, the claimed score (the minimum over all windows fully inside the span)
is `-5/2`, realized by the final window `[1, 3)`, but the implemented loop
`for t in range(start_t, end_t - n)` never visits that final window and
returns `-1`. -/
theorem C1_counterexample :
    confidence pC1 2 0 3 = -1 ∧ confidence_spec pC1 2 0 3 = -(5/2) ∧
    confidence pC1 2 0 3 ≠ confidence_spec pC1 2 0 3 := by
  refine ⟨?_, ?_, ?_⟩
  · simp [confidence, windowMeans, meanSlice, min_prob, pC1, List.range_succ, min_def]
  · simp [confidence_spec, allWindowMeans, meanSlice, pC1, List.range_succ, min_def]
    norm_num
  · have h1 : confidence pC1 2 0 3 = -1 := by
      simp [confidence, windowMeans, meanSlice, min_prob, pC1, List.range_succ, min_def]
    have h2 : confidence_spec pC1 2 0 3 = -(5/2) := by
      simp [confidence_spec, allWindowMeans, meanSlice, pC1, List.range_succ, min_def]
      norm_num
    rw [h1, h2]
    norm_num

/-- Claim C1 amended: for computed frame bounds with `start_t < end_t`, a span
of at most `L` frames scores the unweighted mean of
`char_probs[start_t:end_t]`; a longer span scores the minimum of `0` and the
window means over the windows starting at `start_t, ..., end_t - L - 1` (the
final window, starting at `end_t - L`, is not visited and the result never
exceeds `0`). -/
theorem C1_amended_confidence (p : ℤ → ℚ) (L s e : ℤ) (h1 : s < e) :
    (e - s ≤ L → confidence p L s e = meanSlice p s e) ∧
    (L < e - s →
      confidence p L s e ∈ (0 : ℚ) :: windowMeans p L s e ∧
      ∀ x ∈ (0 : ℚ) :: windowMeans p L s e, confidence p L s e ≤ x) := by
  constructor
  · intro h
    unfold confidence
    rw [if_neg (by omega), if_pos h]
  · intro h
    have hc : confidence p L s e = (windowMeans p L s e).foldl min 0 := by
      unfold confidence
      rw [if_neg (by omega), if_neg (by omega)]
    rw [hc]
    exact ⟨foldl_min_mem _ _, foldl_min_le _ _⟩

/-- Claim C1 witness: the amended characterization applied to the concrete
probabilities `pC1`, window length `2` and span `[0, 3)`. -/
theorem C1_amended_confidence_witness :
    (0 : ℤ) < 3 ∧
    (((3 : ℤ) - 0 ≤ 2 → confidence pC1 2 0 3 = meanSlice pC1 0 3) ∧
     ((2 : ℤ) < 3 - 0 →
       confidence pC1 2 0 3 ∈ (0 : ℚ) :: windowMeans pC1 2 0 3 ∧
       ∀ x ∈ (0 : ℚ) :: windowMeans pC1 2 0 3, confidence pC1 2 0 3 ≤ x)) :=
  ⟨by decide, C1_amended_confidence pC1 2 0 3 (by decide)⟩

/-- Claim C7: whenever the computed end frame is at most the computed start
frame, the scorer does not abort: the utterance still receives a segment, and
its confidence is the fixed very negative sentinel `min_prob`. -/
theorem C7_degenerate_span_sentinel (blank : List Char) (L : ℤ) (dur : ℚ)
    (bt : List (List Char)) (p timings : ℤ → ℚ) (b0 b1 : ℤ)
    (h : pyRound (computeTimeEnd timings b1 / dur) ≤
      snapStartT bt blank (computeTimeBegin timings b0 / dur)) :
    (utteranceSegment blank L dur bt p timings b0 b1).2.2 = min_prob := by
  unfold utteranceSegment confidence
  simp only []
  rw [if_pos h]

/-- Python `round` fixes integers. -/
theorem pyRound_intCast (n : ℤ) : pyRound ((n : ℚ)) = n := by
  unfold pyRound
  rw [Int.floor_intCast, sub_self]
  norm_num

/-- Python `round` on an integer plus one half rounds to the even neighbour. -/
theorem pyRound_int_add_half (n : ℤ) :
    pyRound ((n : ℚ) + 1/2) = if 2 ∣ n then n else n + 1 := by
  have hf : ⌊(n : ℚ) + 1/2⌋ = n := by
    rw [Int.floor_eq_iff]
    constructor <;> norm_num
  unfold pyRound
  rw [hf]
  have hfrac : (n : ℚ) + 1/2 - (n : ℤ) = 1/2 := by ring
  rw [hfrac]
  norm_num

/-- Claim C7 witness: with all timings zero, a one-frame backtracked sequence
whose frame is not blank and equal begin indices, the end frame equals the
start frame and the returned segment carries the sentinel confidence. -/
theorem C7_degenerate_span_sentinel_witness :
    pyRound (computeTimeEnd (fun _ => (0 : ℚ)) 0 / 1) ≤
      snapStartT [['a']] ['ε'] (computeTimeBegin (fun _ => (0 : ℚ)) 0 / 1) ∧
    (utteranceSegment ['ε'] 30 1 [['a']] (fun _ => 0) (fun _ => 0) 0 0).2.2 =
      min_prob := by
  have he : computeTimeEnd (fun _ => (0 : ℚ)) 0 / 1 = ((0 : ℤ) : ℚ) := by
    norm_num [computeTimeEnd, min_def]
  have hb : computeTimeBegin (fun _ => (0 : ℚ)) 0 / 1 = ((0 : ℤ) : ℚ) := by
    norm_num [computeTimeBegin, max_def]
  have hs : snapStartT [['a']] ['ε'] ((0 : ℤ) : ℚ) = 0 := by
    unfold snapStartT
    rw [Int.floor_intCast]
    rw [if_neg (by decide)]
    exact pyRound_intCast 0
  have h : pyRound (computeTimeEnd (fun _ => (0 : ℚ)) 0 / 1) ≤
      snapStartT [['a']] ['ε'] (computeTimeBegin (fun _ => (0 : ℚ)) 0 / 1) := by
    rw [he, hb, hs, pyRound_intCast]
  exact ⟨h, C7_degenerate_span_sentinel ['ε'] 30 1 [['a']] (fun _ => 0)
    (fun _ => 0) 0 0 h⟩

/-- Every element of a successful traversal is produced by the function. -/
theorem optTraverse_mem (f : α → Option β) :
    ∀ (l : List α) (res : List β), optTraverse f l = some res →
      ∀ b ∈ res, ∃ a ∈ l, f a = some b := by
  intro l
  induction l with
  | nil =>
    intro res h b hb
    simp [optTraverse] at h
    subst h
    simp at hb
  | cons x l ih =>
    intro res h b hb
    unfold optTraverse at h
    cases hfx : f x with
    | none => rw [hfx] at h; simp at h
    | some y =>
      rw [hfx] at h
      cases hrec : optTraverse f l with
      | none => rw [hrec] at h; simp at h
      | some ys =>
        rw [hrec] at h
        simp at h
        subst h
        rcases List.mem_cons.mp hb with hb | hb
        · subst hb
          exact ⟨x, List.mem_cons_self x l, hfx⟩
        · obtain ⟨a, ha, hfa⟩ := ih ys hrec b hb
          exact ⟨a, List.mem_cons_of_mem x ha, hfa⟩

/-- A successful traversal has the length of its input. -/
theorem optTraverse_length (f : α → Option β) :
    ∀ (l : List α) (res : List β), optTraverse f l = some res →
      res.length = l.length := by
  intro l
  induction l with
  | nil => intro res h; simp [optTraverse] at h; subst h; rfl
  | cons x l ih =>
    intro res h
    unfold optTraverse at h
    cases hfx : f x with
    | none => rw [hfx] at h; simp at h
    | some y =>
      rw [hfx] at h
      cases hrec : optTraverse f l with
      | none => rw [hrec] at h; simp at h
      | some ys =>
        rw [hrec] at h
        simp at h
        subst h
        simp [ih ys hrec]

/-- A successful traversal computes its j-th element from the j-th input. -/
theorem optTraverse_get (f : α → Option β) :
    ∀ (l : List α) (res : List β), optTraverse f l = some res →
      ∀ (j : ℕ) (a : α), l.get? j = some a → res.get? j = f a := by
  intro l
  induction l with
  | nil => intro res h j a ha; simp at ha
  | cons x l ih =>
    intro res h j a ha
    unfold optTraverse at h
    cases hfx : f x with
    | none => rw [hfx] at h; simp at h
    | some y =>
      rw [hfx] at h
      cases hrec : optTraverse f l with
      | none => rw [hrec] at h; simp at h
      | some ys =>
        rw [hrec] at h
        simp at h
        subst h
        cases j with
        | zero =>
          simp at ha
          subst ha
          simp [hfx]
        | succ j =>
          rw [List.get?_cons_succ] at ha
          rw [List.get?_cons_succ]
          exact ih ys hrec j a ha

/-- Claim C9: whenever a segments entry is a list of sub-segments, every line
the Output Writer produces for it carries the constant score `-0.2`
(the code overwrites `score = -0.2` before writing), whatever the
sub-segment triples actually scored. -/
theorem C9_multi_lines_score_constant (xs : List SegTriple)
    (t1 t2 t3 : TextEntry) (ls : List OutLine)
    (h : entryLines (SegEntry.multi xs) t1 t2 t3 = some ls) :
    ∀ l ∈ ls, lineScore l = some (-(1/5)) := by
  intro l hl
  unfold entryLines at h
  obtain ⟨j, _, hfj⟩ := optTraverse_mem _ _ _ h l hl
  rcases hx : xs.get? j with _ | x
  · simp only [hx] at hfj
    exact Option.noConfusion hfj
  rcases ha : textIndex t1 j with _ | a
  · simp only [hx, ha] at hfj
    exact Option.noConfusion hfj
  rcases hb : textIndex t2 j with _ | b
  · simp only [hx, ha, hb] at hfj
    exact Option.noConfusion hfj
  rcases hc : textIndex t3 j with _ | c
  · simp only [hx, ha, hb, hc] at hfj
    exact Option.noConfusion hfj
  simp only [hx, ha, hb, hc, Option.some_inj] at hfj
  subst hfj
  rfl

/-- Claim C9 witness: a two-element sub-segment list with scores `-3` and `-4`
still produces two lines scored `-0.2`. -/
theorem C9_multi_lines_score_constant_witness :
    entryLines (SegEntry.multi [⟨0, 1, -3⟩, ⟨1, 2, -4⟩])
      (TextEntry.lst [['x'], ['y']]) (TextEntry.lst [['x'], ['y']])
      (TextEntry.lst [['x'], ['y']]) =
      some [OutLine.seg 0 1 (-(1/5)) ['x'] ['x'] ['x'],
        OutLine.seg 1 2 (-(1/5)) ['y'] ['y'] ['y']] ∧
    ∀ l ∈ [OutLine.seg 0 1 (-(1/5)) ['x'] ['x'] ['x'],
        OutLine.seg 1 2 (-(1/5)) ['y'] ['y'] ['y']],
      lineScore l = some (-(1/5)) := by
  have h : entryLines (SegEntry.multi [⟨0, 1, -3⟩, ⟨1, 2, -4⟩])
      (TextEntry.lst [['x'], ['y']]) (TextEntry.lst [['x'], ['y']])
      (TextEntry.lst [['x'], ['y']]) =
      some [OutLine.seg 0 1 (-(1/5)) ['x'] ['x'] ['x'],
        OutLine.seg 1 2 (-(1/5)) ['y'] ['y'] ['y']] := by
    simp [entryLines, optTraverse, textIndex, List.range_succ]
  exact ⟨h, C9_multi_lines_score_constant _ _ _ _ _ h⟩

/-- Claim C5 counterexample: an utterance split into two sub-segments with
list-shaped text entries `x`, `y` produces two lines whose text fields differ
(`x` on the first line, `y` on the second), so the lines do not reuse one and
the same per-utterance text; moreover the written score is `-0.2`, not the
sub-segment score `-3`. -/
theorem C5_counterexample :
    write_output ['p'] [SegEntry.multi [⟨0, 1, -3⟩, ⟨1, 2, -4⟩]]
      [TextEntry.lst [['x'], ['y']]] [TextEntry.lst [['x'], ['y']]]
      [TextEntry.lst [['x'], ['y']]] =
      some [OutLine.header ['p'], OutLine.seg 0 1 (-(1/5)) ['x'] ['x'] ['x'],
        OutLine.seg 1 2 (-(1/5)) ['y'] ['y'] ['y']] ∧
    lineText1 (OutLine.seg 0 1 (-(1/5)) ['x'] ['x'] ['x']) ≠
      lineText1 (OutLine.seg 1 2 (-(1/5)) ['y'] ['y'] ['y']) ∧
    lineScore (OutLine.seg 0 1 (-(1/5)) ['x'] ['x'] ['x']) ≠ some (-3) := by
  refine ⟨?_, by decide, ?_⟩
  · simp [write_output, optTraverse, entryLines, textIndex, List.range_succ]
  · simp only [lineScore, Option.some_inj, ne_eq]
    norm_num

/-- Claim C5 amended: the writer emits one header line carrying the audio
path; an utterance with a single triple yields one line with the triple's own
score and the three whole text entries; an utterance with a list of
sub-segments yields one line per sub-segment, where line `j` carries the
constant score `-0.2` and the `j`-th element of each text variant (for a
string entry, its `j`-th character). -/
theorem C5_amended_write_output :
    (∀ (path : List Char) (segs : List SegEntry) (t1 t2 t3 : List TextEntry)
       (ls : List OutLine), write_output path segs t1 t2 t3 = some ls →
       ls.head? = some (OutLine.header path)) ∧
    (∀ (x : SegTriple) (t1 t2 t3 : TextEntry),
       entryLines (SegEntry.single x) t1 t2 t3 =
         some [OutLine.seg x.start x.stop x.score (fmtTextEntry t1)
           (fmtTextEntry t2) (fmtTextEntry t3)]) ∧
    (∀ (xs : List SegTriple) (t1 t2 t3 : TextEntry) (ls : List OutLine),
       entryLines (SegEntry.multi xs) t1 t2 t3 = some ls →
       ls.length = xs.length ∧
       ∀ (j : ℕ) (x : SegTriple) (a b c : List Char),
         xs.get? j = some x → textIndex t1 j = some a →
         textIndex t2 j = some b → textIndex t3 j = some c →
         ls.get? j = some (OutLine.seg x.start x.stop (-(1/5)) a b c)) := by
  refine ⟨?_, ?_, ?_⟩
  · intro path segs t1 t2 t3 ls h
    unfold write_output at h
    cases ho : optTraverse (fun i =>
        match segs.get? i, t1.get? i, t2.get? i, t3.get? i with
        | some s, some a, some b, some c => entryLines s a b c
        | _, _, _, _ => none) (List.range segs.length) with
    | none => rw [ho] at h; simp at h
    | some body =>
      rw [ho] at h
      simp only [Option.some_inj] at h
      subst h
      rfl
  · intro x t1 t2 t3
    rfl
  · intro xs t1 t2 t3 ls h
    unfold entryLines at h
    constructor
    · rw [optTraverse_length _ _ _ h]
      simp
    · intro j x a b c hx ha hb hc
      have hj : j < xs.length := (List.get?_eq_some.mp hx).1
      have hr : (List.range xs.length).get? j = some j := by
        rw [List.get?_eq_getElem?]
        exact List.getElem?_range hj
      have hg := optTraverse_get _ _ _ h j j hr
      simp only [hx, ha, hb, hc] at hg
      exact hg

/-- Claim C5 witness: the amended description applied to a concrete header, a
single-triple utterance and a split utterance. -/
theorem C5_amended_write_output_witness :
    write_output ['p'] [SegEntry.multi [⟨0, 1, -3⟩, ⟨1, 2, -4⟩]]
      [TextEntry.lst [['x'], ['y']]] [TextEntry.lst [['x'], ['y']]]
      [TextEntry.lst [['x'], ['y']]] =
      some [OutLine.header ['p'], OutLine.seg 0 1 (-(1/5)) ['x'] ['x'] ['x'],
        OutLine.seg 1 2 (-(1/5)) ['y'] ['y'] ['y']] ∧
    ([OutLine.header ['p'], OutLine.seg 0 1 (-(1/5)) ['x'] ['x'] ['x'],
        OutLine.seg 1 2 (-(1/5)) ['y'] ['y'] ['y']] : List OutLine).head? =
      some (OutLine.header ['p']) ∧
    entryLines (SegEntry.single ⟨3, 4, -7⟩) (TextEntry.str ['u'])
      (TextEntry.str ['v']) (TextEntry.str ['w']) =
      some [OutLine.seg 3 4 (-7) ['u'] ['v'] ['w']] ∧
    ([OutLine.seg 0 1 (-(1/5)) ['x'] ['x'] ['x'],
        OutLine.seg 1 2 (-(1/5)) ['y'] ['y'] ['y']] : List OutLine).get? 1 =
      some (OutLine.seg 1 2 (-(1/5)) ['y'] ['y'] ['y']) := by
  have hw : write_output ['p'] [SegEntry.multi [⟨0, 1, -3⟩, ⟨1, 2, -4⟩]]
      [TextEntry.lst [['x'], ['y']]] [TextEntry.lst [['x'], ['y']]]
      [TextEntry.lst [['x'], ['y']]] =
      some [OutLine.header ['p'], OutLine.seg 0 1 (-(1/5)) ['x'] ['x'] ['x'],
        OutLine.seg 1 2 (-(1/5)) ['y'] ['y'] ['y']] := by
    simp [write_output, optTraverse, entryLines, textIndex, List.range_succ]
  have he : entryLines (SegEntry.multi [⟨0, 1, -3⟩, ⟨1, 2, -4⟩])
      (TextEntry.lst [['x'], ['y']]) (TextEntry.lst [['x'], ['y']])
      (TextEntry.lst [['x'], ['y']]) =
      some [OutLine.seg 0 1 (-(1/5)) ['x'] ['x'] ['x'],
        OutLine.seg 1 2 (-(1/5)) ['y'] ['y'] ['y']] := by
    simp [entryLines, optTraverse, textIndex, List.range_succ]
  refine ⟨hw, C5_amended_write_output.1 _ _ _ _ _ _ hw,
    C5_amended_write_output.2.1 ⟨3, 4, -7⟩ (TextEntry.str ['u'])
      (TextEntry.str ['v']) (TextEntry.str ['w']), ?_⟩
  exact (C5_amended_write_output.2.2 _ _ _ _ _ he).2 1 ⟨1, 2, -4⟩ ['y'] ['y'] ['y']
    rfl rfl rfl rfl

/-- A `takeWhile` over a mapped range whose predicate holds for the first `c`
elements and fails right after (when anything is left) is the mapped range of
length `c`. -/
theorem takeWhile_map_range (p : α → Bool) :
    ∀ (n : ℕ) (g : ℕ → α) (c : ℕ), c ≤ n →
      (∀ k < c, p (g k) = true) → (c < n → p (g c) = false) →
      ((List.range n).map g).takeWhile p = (List.range c).map g := by
  intro n
  induction n with
  | zero =>
    intro g c hc _ _
    have : c = 0 := Nat.le_zero.mp hc
    subst this
    rfl
  | succ n ih =>
    intro g c hc h1 h2
    rw [List.range_succ_eq_map, List.map_cons, List.map_map]
    cases c with
    | zero =>
      have hp := h2 (Nat.succ_pos n)
      simp [List.takeWhile_cons, hp]
    | succ c' =>
      have hp := h1 0 (Nat.succ_pos c')
      rw [List.takeWhile_cons, if_pos hp]
      rw [ih (g ∘ Nat.succ) c' (Nat.succ_le_succ_iff.mp hc)
        (fun k hk => h1 (k + 1) (Nat.succ_lt_succ hk))
        (fun hk => h2 (Nat.succ_lt_succ hk))]
      rw [List.range_succ_eq_map, List.map_cons, List.map_map]

/-- The backward blank scan characterized by the length `c` of the run of
blank frames immediately before the floored frame (capped by the lookback
bound of nineteen recordable frames): no blank run yields `None`, otherwise
the recorded furthest-back blank frame is `floor_t - c`. -/
theorem scanBack_eq_run (bt : List (List Char)) (blank : List Char) (f : ℤ)
    (c : ℕ) (hc19 : c ≤ 19)
    (h1 : ∀ k ∈ List.range c, pyIdx bt (f - 1 - (k : ℤ)) = blank)
    (h2 : c < 19 → pyIdx bt (f - 1 - (c : ℤ)) ≠ blank) :
    scanBack bt blank f = if c = 0 then none else some (f - (c : ℤ)) := by
  unfold scanBack scanCandidates
  rw [takeWhile_map_range (fun j => decide (pyIdx bt j = blank)) 19
    (fun k => f - 1 - (k : ℤ)) c hc19
    (fun k hk => by
      simp only [decide_eq_true_eq]
      exact h1 k (List.mem_range.mpr hk))
    (fun hk => by
      simp only [decide_eq_false_iff_not]
      exact h2 hk)]
  cases c with
  | zero => rfl
  | succ c' =>
    rw [List.range_succ, List.map_append, List.map_cons, List.map_nil]
    rw [List.getLast?_concat]
    rw [if_neg (Nat.succ_ne_zero c')]
    have hcast : f - 1 - (c' : ℤ) = f - ((c' + 1 : ℕ) : ℤ) := by push_cast; ring
    rw [hcast]

/-- Backtracked symbols with a blank run over frames 0 and 1 and a non-blank
final frame: the floored start frame 1 is blank and the furthest-back blank
frame of the scan is frame 0. -/
def btA : List (List Char) := [['ε'], ['ε'], ['a'], ['a']]

/-- Backtracked symbols with frame 0 non-blank and frames 1 to 21 blank: from
the floored start frame 21, twenty blank frames precede the floored frame, but
the scan can only record nineteen of them. -/
def btB : List (List Char) := ['a'] :: List.replicate 21 ['ε']

/-- Claim C2 counterexample.  First part: on `btA` with floored start frame 1
(a blank frame, furthest-back blank frame 0), the code keeps the floored frame
1 because `if start_blank:` is falsy at frame 0, while the claimed midpoint is
`round(0 + (1 - 0)/2) = 0`.  Second part: on `btB` with floored start frame 21
and twenty preceding blank frames, the scan records only down to frame 2
(nineteen frames), yielding `round(2 + 19/2) = 12`, while a scan recording the
full twenty frames would yield `round(1 + 10) = 11`. -/
theorem C2_counterexample :
    (pyIdx btA ⌊(1 : ℚ)⌋ = ['ε'] ∧ pyIdx btA 0 = ['ε'] ∧
     scanBack btA ['ε'] ⌊(1 : ℚ)⌋ = some 0 ∧
     snapStartT btA ['ε'] 1 = 1 ∧
     pyRound (((0 : ℤ) : ℚ) + (((1 : ℤ) : ℚ) - ((0 : ℤ) : ℚ)) / 2) = 0 ∧
     snapStartT btA ['ε'] 1 ≠
       pyRound (((0 : ℤ) : ℚ) + (((1 : ℤ) : ℚ) - ((0 : ℤ) : ℚ)) / 2)) ∧
    (pyIdx btB ⌊(21 : ℚ)⌋ = ['ε'] ∧ pyIdx btB 1 = ['ε'] ∧
     snapStartT btB ['ε'] 21 = 12 ∧
     pyRound (((1 : ℤ) : ℚ) + (((21 : ℤ) : ℚ) - ((1 : ℤ) : ℚ)) / 2) = 11 ∧
     snapStartT btB ['ε'] 21 ≠
       pyRound (((1 : ℤ) : ℚ) + (((21 : ℤ) : ℚ) - ((1 : ℤ) : ℚ)) / 2)) := by
  have hf1 : ⌊(1 : ℚ)⌋ = 1 := Int.floor_one
  have hf21 : ⌊(21 : ℚ)⌋ = 21 := by
    rw [show (21 : ℚ) = ((21 : ℤ) : ℚ) from by norm_num, Int.floor_intCast]
  have hsA : scanBack btA ['ε'] 1 = some 0 := by decide
  have hsB : scanBack btB ['ε'] 21 = some 2 := by decide
  have hsnapA : snapStartT btA ['ε'] 1 = 1 := by
    unfold snapStartT
    rw [hf1, if_pos (by decide : pyIdx btA 1 = ['ε'])]
    simp [hsA]
  have hmidA : pyRound (((0 : ℤ) : ℚ) + (((1 : ℤ) : ℚ) - ((0 : ℤ) : ℚ)) / 2) = 0 := by
    have harg : ((0 : ℤ) : ℚ) + (((1 : ℤ) : ℚ) - ((0 : ℤ) : ℚ)) / 2 =
        ((0 : ℤ) : ℚ) + 1/2 := by push_cast; ring
    rw [harg, pyRound_int_add_half, if_pos (by decide : (2 : ℤ) ∣ 0)]
  have hsnapB : snapStartT btB ['ε'] 21 = 12 := by
    unfold snapStartT
    rw [hf21, if_pos (by decide : pyIdx btB 21 = ['ε'])]
    simp only [hsB]
    rw [if_neg (by decide : ¬ (2 : ℤ) = 0)]
    have harg : ((2 : ℤ) : ℚ) + (((21 : ℤ) : ℚ) - ((2 : ℤ) : ℚ)) / 2 =
        ((11 : ℤ) : ℚ) + 1/2 := by push_cast; ring
    rw [harg, pyRound_int_add_half, if_neg (by decide : ¬ (2 : ℤ) ∣ 11)]
    decide
  have hmidB : pyRound (((1 : ℤ) : ℚ) + (((21 : ℤ) : ℚ) - ((1 : ℤ) : ℚ)) / 2) = 11 := by
    have harg : ((1 : ℤ) : ℚ) + (((21 : ℤ) : ℚ) - ((1 : ℤ) : ℚ)) / 2 =
        ((11 : ℤ) : ℚ) := by push_cast; ring
    rw [harg, pyRound_intCast]
  refine ⟨⟨by rw [hf1]; decide, by decide, by rw [hf1]; exact hsA, hsnapA, hmidA, ?_⟩,
    ⟨by rw [hf21]; decide, by decide, hsnapB, hmidB, ?_⟩⟩
  · rw [hsnapA, hmidA]; decide
  · rw [hsnapB, hmidB]; decide

/-- Claim C2 amended: let `c` be the length of the run of blank frames
immediately preceding the floored start frame (at most nineteen frames can be
recorded by the scan).  If the floored frame is blank and a blank run was
recorded (`0 < c`), the recorded furthest-back blank frame is `floor - c`;
when that frame is nonzero the start frame becomes the half-to-even rounded
midpoint between it and the floored frame and start seconds are recomputed
from the snapped frame, but when that frame is frame `0` (or no blank frame
was recorded) the floored frame itself is kept.  If the floored frame is not
blank, the unfloored estimate is rounded half-to-even and start seconds are
unchanged. -/
theorem C2_amended_start_snap (bt : List (List Char)) (blank : List Char)
    (q start0 dur : ℚ) (c : ℕ) :
    (pyIdx bt ⌊q⌋ = blank →
      c ≤ 19 →
      (∀ k ∈ List.range c, pyIdx bt (⌊q⌋ - 1 - (k : ℤ)) = blank) →
      (c < 19 → pyIdx bt (⌊q⌋ - 1 - (c : ℤ)) ≠ blank) →
      ((0 < c → ⌊q⌋ - (c : ℤ) ≠ 0 →
        snapStartT bt blank q =
          pyRound (((⌊q⌋ - (c : ℤ) : ℤ) : ℚ) +
            (((⌊q⌋ : ℤ) : ℚ) - ((⌊q⌋ - (c : ℤ) : ℤ) : ℚ)) / 2) ∧
        snapStartSec bt blank start0 q dur =
          ((snapStartT bt blank q : ℤ) : ℚ) * dur) ∧
       (0 < c → ⌊q⌋ - (c : ℤ) = 0 → snapStartT bt blank q = ⌊q⌋) ∧
       (c = 0 → snapStartT bt blank q = ⌊q⌋))) ∧
    (pyIdx bt ⌊q⌋ ≠ blank →
      snapStartT bt blank q = pyRound q ∧
      snapStartSec bt blank start0 q dur = start0) := by
  constructor
  · intro hb h19 h1 h2
    have hs := scanBack_eq_run bt blank ⌊q⌋ c h19 h1 h2
    refine ⟨?_, ?_, ?_⟩
    · intro hc hm
      have hc0 : ¬ c = 0 := by omega
      rw [if_neg hc0] at hs
      constructor
      · unfold snapStartT
        rw [if_pos hb]
        simp only [hs]
        rw [if_neg hm]
      · unfold snapStartSec
        rw [if_pos hb]
    · intro hc hm
      have hc0 : ¬ c = 0 := by omega
      rw [if_neg hc0] at hs
      unfold snapStartT
      rw [if_pos hb]
      simp only [hs]
      rw [if_pos hm]
    · intro hc0
      rw [if_pos hc0] at hs
      unfold snapStartT
      rw [if_pos hb]
      simp only [hs]
  · intro hb
    constructor
    · unfold snapStartT
      rw [if_neg hb]
    · unfold snapStartSec
      rw [if_neg hb]

/-- Backtracked symbols for the claim C2 witness: frames 2 to 5 blank, frames
0 and 1 not blank, so from floored start frame 5 the blank run has length 3
and the furthest-back recorded blank frame is 2. -/
def btW : List (List Char) := [['a'], ['a'], ['ε'], ['ε'], ['ε'], ['ε']]

/-- Claim C2 witness: the amended description applied to `btW` with start
estimate 5, original start seconds 7 and frame duration 2. -/
theorem C2_amended_start_snap_witness :
    (pyIdx btW ⌊(5 : ℚ)⌋ = ['ε'] ∧
     (∀ k ∈ List.range 3, pyIdx btW (⌊(5 : ℚ)⌋ - 1 - (k : ℤ)) = ['ε']) ∧
     ((3 : ℕ) < 19 → pyIdx btW (⌊(5 : ℚ)⌋ - 1 - ((3 : ℕ) : ℤ)) ≠ ['ε']) ∧
     (0 : ℕ) < 3 ∧ ⌊(5 : ℚ)⌋ - ((3 : ℕ) : ℤ) ≠ 0) ∧
    snapStartT btW ['ε'] 5 =
      pyRound (((⌊(5 : ℚ)⌋ - ((3 : ℕ) : ℤ) : ℤ) : ℚ) +
        (((⌊(5 : ℚ)⌋ : ℤ) : ℚ) - ((⌊(5 : ℚ)⌋ - ((3 : ℕ) : ℤ) : ℤ) : ℚ)) / 2) ∧
    snapStartSec btW ['ε'] 7 5 2 = ((snapStartT btW ['ε'] 5 : ℤ) : ℚ) * 2 := by
  have hf : ⌊(5 : ℚ)⌋ = 5 := by
    rw [show (5 : ℚ) = ((5 : ℤ) : ℚ) from by norm_num, Int.floor_intCast]
  have hb : pyIdx btW ⌊(5 : ℚ)⌋ = ['ε'] := by rw [hf]; decide
  have h1 : ∀ k ∈ List.range 3, pyIdx btW (⌊(5 : ℚ)⌋ - 1 - (k : ℤ)) = ['ε'] := by
    simp only [hf]
    decide
  have h2 : (3 : ℕ) < 19 → pyIdx btW (⌊(5 : ℚ)⌋ - 1 - ((3 : ℕ) : ℤ)) ≠ ['ε'] := by
    simp only [hf]
    decide
  have hm : ⌊(5 : ℚ)⌋ - ((3 : ℕ) : ℤ) ≠ 0 := by rw [hf]; decide
  obtain ⟨hmain, hsec⟩ :=
    ((C2_amended_start_snap btW ['ε'] 5 7 2 3).1 hb (by decide) h1 h2).1
      (by decide) hm
  exact ⟨⟨hb, h1, h2, by decide, hm⟩, hmain, hsec⟩

/-- A job that produced output lines must have had a successful backend call. -/
theorem jobBody_ok_backend (env : JobEnv) (path : List Char)
    (vocab : List (List Char)) (tok : List Char → List ℤ) (bpe : Bool)
    (dur : ℚ) (L : ℤ) (lines : List OutLine)
    (h : jobBody env path vocab tok bpe dur L = .ok lines) :
    ∃ bo, env.backend = Except.ok bo := by
  unfold jobBody at h
  cases ht : env.transcript with
  | none =>
    rw [ht] at h
    exact Except.noConfusion h
  | some raw =>
    simp only [ht] at h
    split at h
    · exact Except.noConfusion h
    split at h
    · exact Except.noConfusion h
    split at h
    · exact Except.noConfusion h
    split at h
    · exact Except.noConfusion h
    split at h
    · exact Except.noConfusion h
    split at h
    · exact Except.noConfusion h
    next bo hbo =>
      exact ⟨bo, hbo⟩

/-- Claim C8: the per-job pipeline never propagates an error to its caller:
a missing transcript, a missing sibling file, a line-count mismatch between
the three text variants, or a failing backend call each make the job produce
no output (and the embedding is a total function, so no exception escapes). -/
theorem C8_job_failures_produce_no_output (env : JobEnv) (path : List Char)
    (vocab : List (List Char)) (tok : List Char → List ℤ) (bpe : Bool)
    (dur : ℚ) (L : ℤ) :
    (env.transcript = none →
      get_segments env path vocab tok bpe dur L = none) ∧
    (env.punct_exists = false →
      get_segments env path vocab tok bpe dur L = none) ∧
    (env.normalized_exists = false →
      get_segments env path vocab tok bpe dur L = none) ∧
    (∀ raw, env.transcript = some raw →
      (stripLines env.punct).length ≠ (stripLines raw).length →
      get_segments env path vocab tok bpe dur L = none) ∧
    (∀ raw, env.transcript = some raw →
      (stripLines env.normalized).length ≠ (stripLines raw).length →
      get_segments env path vocab tok bpe dur L = none) ∧
    (∀ e, env.backend = Except.error e →
      get_segments env path vocab tok bpe dur L = none) := by
  refine ⟨?_, ?_, ?_, ?_, ?_, ?_⟩
  · intro ht
    unfold get_segments jobBody
    simp [ht, Except.toOption]
  · intro hp
    unfold get_segments jobBody
    cases ht : env.transcript with
    | none => simp [Except.toOption]
    | some raw => simp [hp, Except.toOption]
  · intro hn
    unfold get_segments jobBody
    cases ht : env.transcript with
    | none => simp [Except.toOption]
    | some raw =>
      cases hp : env.punct_exists with
      | false => simp [hp, Except.toOption]
      | true => simp [hp, hn, Except.toOption]
  · intro raw ht hl
    unfold get_segments jobBody
    simp only [ht]
    cases hp : env.punct_exists with
    | false => simp [Except.toOption]
    | true =>
      cases hn : env.normalized_exists with
      | false => simp [Except.toOption]
      | true => simp [hl, Except.toOption]
  · intro raw ht hl
    unfold get_segments jobBody
    simp only [ht]
    cases hp : env.punct_exists with
    | false => simp [Except.toOption]
    | true =>
      cases hn : env.normalized_exists with
      | false => simp [Except.toOption]
      | true =>
        by_cases hpl : (stripLines env.punct).length = (stripLines raw).length
        · simp [hpl, hl, Except.toOption]
        · simp [hpl, Except.toOption]
  · intro e hbe
    unfold get_segments
    cases hjb : jobBody env path vocab tok bpe dur L with
    | error u => rfl
    | ok ls =>
      obtain ⟨bo, hbo⟩ := jobBody_ok_backend env path vocab tok bpe dur L ls hjb
      rw [hbe] at hbo
      exact Except.noConfusion hbo

/-- The concrete job environment of the claim C8 witness: the sibling file
with punctuation is missing. -/
def envW : JobEnv :=
  { transcript := some [['h', 'i']], punct_exists := false, punct := [],
    normalized_exists := true, normalized := [['h', 'i']],
    backend := Except.error () }

/-- Claim C8 witness: a job whose punctuation sibling file is missing produces
no output file. -/
theorem C8_job_failures_produce_no_output_witness :
    envW.punct_exists = false ∧
    get_segments envW ['p'] vocabC3 (fun _ => []) false 1 30 = none :=
  ⟨rfl, (C8_job_failures_produce_no_output envW ['p'] vocabC3 (fun _ => [])
    false 1 30).2.1 rfl⟩
